import Mathlib

/-!
# MultiMC4 `src/data/mod.cpp`: mod descriptor construction

A shallow embedding of `Mod::Mod`, `Mod::ReadModInfoData`,
`Mod::ReadForgeInfoData`, the getters and `Mod::operator==`.

Conventions of the embedding.

* `wxString` and `std::string` are both Lean `String`s.
* What the program reads from the outside world is explicit: the file system,
  with what the file, directory and zip streams deliver, is a value of type
  `FileSystem`, and the routines whose code is not part of `mod.cpp`
  (`read_json`, `read_ini`, `Path::Combine`, and the two steps of
  `wxFileName::SameAs` that look at the environment) are the fields of a
  `Library` value that the operations take as argument.
* A C++ `try` body is a function returning the record as it stands when the
  body stops, together with how it stopped (`Completion`); the `catch` clauses
  are applied to that by the enclosing function.
-/

set_option linter.dupNamespace false

namespace MultiMC

/-! ## Strings -/

/-- The method `wxString::EndsWith(suffix)`: the characters of `suffix` are the
last characters of `s`. -/
def EndsWith (s suffix : String) : Bool :=
  suffix.data.isSuffixOf s.data

/-- The method `wxString::Lower()`: every character replaced by its lower-case
form. -/
def Lower (s : String) : String :=
  String.mk (s.data.map Char.toLower)

/-- Modelled from the spec: `utils/apputils.h` is not among the sources. `wxStr`
converts a `std::string` to a `wxString`; the spec passes descriptor values
through unchanged, so it is the identity on the text. -/
def wxStr (s : String) : String := s

/-- Modelled from the spec: `utils/apputils.h` is not among the sources. `cStr`
converts a `wxString` to a `std::string`; the identity on the text. -/
def cStr (s : String) : String := s

/-! ## `wxFileName` -/

/-- The parts of a `wxFileName` that `mod.cpp` reads: the directory part, the
name without extension, and the extension (with the flag telling a name with
an empty extension from a name with none). -/
structure wxFileName where
  path : String
  name : String
  ext : String
  hasExt : Bool
  deriving DecidableEq, Repr

namespace wxFileName

/-- `GetName()`: the name without its extension. -/
def GetName (f : wxFileName) : String := f.name

/-- `GetExt()`: the extension, without the dot. -/
def GetExt (f : wxFileName) : String := f.ext

/-- `GetFullName()`: name and extension. -/
def GetFullName (f : wxFileName) : String :=
  if f.hasExt then f.name ++ "." ++ f.ext else f.name

/-- `GetFullPath()`: directory part, separator, full name. -/
def GetFullPath (f : wxFileName) : String :=
  if f.path = "" then f.GetFullName else f.path ++ "/" ++ f.GetFullName

end wxFileName

/-! ## Property trees -/

/-- A `boost::property_tree::ptree`: a node carries a data string and an
ordered list of keyed children. -/
inductive ptree where
  | node (data : String) (children : List (String × ptree))

namespace ptree

/-- The data of a node, which is what `get_value<std::string>()` returns. -/
def data : ptree → String
  | node d _ => d

/-- The children of a node, in order (`begin()` … `end()`). -/
def children : ptree → List (String × ptree)
  | node _ cs => cs

end ptree

/-- The exceptions of `boost::property_tree` that can be raised in the two
parsers of `mod.cpp`. -/
inductive Exn where
  | json_parser_error
  | ini_parser_error
  | ptree_bad_path
  | ptree_bad_data
  deriving DecidableEq, Repr

namespace Exn

/-- Whether `catch (json_parser_error e)` takes the exception. -/
def is_json_parser_error : Exn → Bool
  | json_parser_error => true
  | _ => false

/-- Whether `catch (ptree_error e)` takes the exception: `ptree_bad_path` and
`ptree_bad_data` derive from `ptree_error`, and so do both parser errors
(through `file_parser_error`). -/
def is_ptree_error : Exn → Bool
  | json_parser_error => true
  | ini_parser_error => true
  | ptree_bad_path => true
  | ptree_bad_data => true

end Exn

namespace ptree

/-- `get_child(path)` for a path without separator: the empty path is the node
itself, a key is the first child with that key, and `ptree_bad_path` is thrown
when there is none. -/
def get_child (pt : ptree) (path : String) : Except Exn ptree :=
  if path = "" then .ok pt
  else
    match pt.children.find? (fun kv => kv.1 == path) with
    | some kv => .ok kv.2
    | none => .error Exn.ptree_bad_path

/-- `get<std::string>(path)`: the data of `get_child(path)`. -/
def get (pt : ptree) (path : String) : Except Exn String :=
  match pt.get_child path with
  | .ok c => .ok c.data
  | .error e => .error e

end ptree

/-! ## The record -/

/-- Modelled from the spec: `mod.h` is not among the sources. The storage kinds
are the four enumerators `mod.cpp` uses. -/
inductive ModType where
  | MOD_UNKNOWN
  | MOD_ZIPFILE
  | MOD_SINGLEFILE
  | MOD_FOLDER
  deriving DecidableEq, Repr

open ModType

/-- Modelled from the spec: `mod.h` is not among the sources. The data members
are the six that `mod.cpp` reads or writes. -/
structure Mod where
  modFile : wxFileName
  modName : String
  modID : String
  modVersion : String
  mcVersion : String
  modType : ModType
  deriving DecidableEq, Repr

/-- How a `try` body stopped: it ran to its end, it threw, or it dereferenced
the `begin()` iterator of an empty child list (undefined behaviour). -/
inductive Completion where
  | normal
  | thrown (e : Exn)
  | undefined
  deriving DecidableEq, Repr

/-- What the caller of a member function or constructor sees. -/
inductive Outcome where
  | returned (m : Mod)
  | uncaught (e : Exn)
  | undefined
  deriving DecidableEq, Repr

/-- An entry of a zip archive as `wxZipInputStream` delivers it: its internal
name and the content that `Read` yields while it is the current entry. -/
structure wxZipEntry where
  internalName : String
  content : String
  deriving DecidableEq, Repr

/-- `wxZipEntry::GetInternalName()`. -/
def wxZipEntry.GetInternalName (e : wxZipEntry) : String := e.internalName

/-- The external routines `mod.cpp` calls. `read_json` and `read_ini` are the
boost parsers (an error is the exception thrown); `Combine` is `Path::Combine`
of `utils/apputils.h`; `Normalize` is `wxFileName::Normalize` with the flags
`wxPATH_NORM_ALL | wxPATH_NORM_CASE` and the current working directory;
`sameInode` tells whether `stat` succeeds on both names and reports the same
device and inode. -/
structure Library where
  read_json : String → Except Exn ptree
  read_ini : String → Except Exn ptree
  Combine : String → String → String
  Normalize : wxFileName → wxFileName
  sameInode : wxFileName → wxFileName → Bool

/-- The `try` body of `ReadModInfoData` (lines 152–158). -/
def ReadModInfoData_try (lib : Library) (self : Mod) (info : String) : Mod × Completion :=
  match lib.read_json (cStr info) with
  | .error e => (self, .thrown e)
  | .ok ptRoot =>
    match ptRoot.get_child "" with
    | .error e => (self, .thrown e)
    | .ok root =>
      match root.children.head? with
      | none => (self, .undefined)
      | some first =>
        let pt := first.2
        match pt.get "modid" with
        | .error e => (self, .thrown e)
        | .ok v =>
          let self := { self with modID := wxStr v }
          match pt.get "name" with
          | .error e => (self, .thrown e)
          | .ok v =>
            let self := { self with modName := wxStr v }
            match pt.get "version" with
            | .error e => (self, .thrown e)
            | .ok v =>
              let self := { self with modVersion := wxStr v }
              (self, .normal)

/-- The two `catch` clauses shared by both parsers: `json_parser_error` and
`ptree_error` are absorbed, the record staying as the body left it. -/
def catchPtree (r : Mod × Completion) : Outcome :=
  match r with
  | (m, .normal) => .returned m
  | (m, .thrown e) =>
    if e.is_json_parser_error then .returned m
    else if e.is_ptree_error then .returned m
    else .uncaught e
  | (_, .undefined) => .undefined

/-- `Mod::ReadModInfoData(info)`. -/
def ReadModInfoData (lib : Library) (self : Mod) (info : String) : Outcome :=
  catchPtree (ReadModInfoData_try lib self info)

/-! ## `Mod::ReadForgeInfoData` -/

/-- The four locals `major, minor, revision, build` of `ReadForgeInfoData`. -/
structure ForgeNumbers where
  major : String
  minor : String
  revision : String
  build : String
  deriving DecidableEq, Repr

/-- One iteration of the loop over the root's children (lines 187–197). -/
def forgeStep (acc : ForgeNumbers) (item : String × ptree) : ForgeNumbers :=
  let key := item.1
  let value := item.2.data
  let acc := if key = "forge.major.number" then { acc with major := value } else acc
  let acc := if key = "forge.minor.number" then { acc with minor := value } else acc
  let acc := if key = "forge.revision.number" then { acc with revision := value } else acc
  let acc := if key = "forge.build.number" then { acc with build := value } else acc
  acc

/-- The loop of lines 185–198, from four empty strings. -/
def forgeLoop (items : List (String × ptree)) : ForgeNumbers :=
  items.foldl forgeStep { major := "", minor := "", revision := "", build := "" }

/-- The `try` body of `ReadForgeInfoData` (lines 181–200). -/
def ReadForgeInfoData_try (lib : Library) (self : Mod) (infoFileData : String) :
    Mod × Completion :=
  match lib.read_ini (cStr infoFileData) with
  | .error e => (self, .thrown e)
  | .ok ptRoot =>
    let n := forgeLoop ptRoot.children
    let self := { self with modVersion := "" }
    let self := { self with
      modVersion := self.modVersion ++ n.major ++ "." ++ n.minor ++ "." ++ n.revision
        ++ "." ++ n.build }
    (self, .normal)

/-- `Mod::ReadForgeInfoData(infoFileData)`. -/
def ReadForgeInfoData (lib : Library) (self : Mod) (infoFileData : String) : Outcome :=
  let self := { self with modName := "Minecraft Forge" }
  let self := { self with modID := "Forge" }
  catchPtree (ReadForgeInfoData_try lib self infoFileData)

/-! ## The file system -/

/-- What a path names: a regular file, with the text a `wxFFileInputStream`
reads from it and the entries a `wxZipInputStream` enumerates from it (in
stored order; none for a file that is no archive), or a directory, with
whether `wxDir` can open it and the names `wxDir` enumerates (in enumeration
order). -/
inductive FsNode where
  | file (content : String) (zip : List wxZipEntry)
  | dir (opened : Bool) (entries : List String)
  deriving DecidableEq, Repr

/-- The state of the file system at the time of the call: what each path names,
if anything. -/
abbrev FileSystem := String → Option FsNode

/-- `wxDirExists(path)`. -/
def wxDirExists (fs : FileSystem) (path : String) : Bool :=
  match fs path with
  | some (.dir _ _) => true
  | _ => false

/-- `wxFileExists(path)`. -/
def wxFileExists (fs : FileSystem) (path : String) : Bool :=
  match fs path with
  | some (.file _ _) => true
  | _ => false

/-- A `wxFFileInputStream` on `path` read to its end into a string; a stream
that could not be opened delivers nothing. -/
def readAll (fs : FileSystem) (path : String) : String :=
  match fs path with
  | some (.file c _) => c
  | _ => ""

/-- A `wxZipInputStream` over a `wxFFileInputStream` on `path`: the entries still
to be delivered by `GetNextEntry()`; none when the file cannot be opened. -/
def openZip (fs : FileSystem) (path : String) : List wxZipEntry :=
  match fs path with
  | some (.file _ zip) => zip
  | _ => []

/-- A `wxDir` on `path`: `none` when `IsOpened()` is false, otherwise the names
`GetFirst` / `GetNext` deliver. -/
def wxDir (fs : FileSystem) (path : String) : Option (List String) :=
  match fs path with
  | some (.dir true entries) => some entries
  | _ => none

/-! ## Getters and equality -/

/-- `Mod::GetFileName()`. -/
def Mod.GetFileName (m : Mod) : wxFileName := m.modFile

/-- `Mod::GetName()`. -/
def Mod.GetName (m : Mod) : String := m.modName

/-- `Mod::GetModID()`: the full name of the file, not the `modID` member. -/
def Mod.GetModID (m : Mod) : String := m.GetFileName.GetFullName

/-- `Mod::GetModVersion()`. -/
def Mod.GetModVersion (m : Mod) : String := m.modVersion

/-- `Mod::GetMCVersion()`. -/
def Mod.GetMCVersion (m : Mod) : String := m.mcVersion

/-- `Mod::GetModType()`. -/
def Mod.GetModType (m : Mod) : ModType := m.modType

/-- `Mod::IsZipMod()`. -/
def Mod.IsZipMod (m : Mod) : Bool := m.GetModType == MOD_ZIPFILE

/-- The storage kind after lines 44–58. -/
def detectType (fs : FileSystem) (modFile : wxFileName) (type : ModType) : ModType :=
  if type = MOD_UNKNOWN then
    if wxDirExists fs modFile.GetFullPath then MOD_FOLDER
    else if wxFileExists fs modFile.GetFullPath then
      let ext := Lower modFile.GetExt
      if ext = "zip" || ext = "jar" then MOD_ZIPFILE else MOD_SINGLEFILE
    else type
  else type

/-- The loop of lines 71–83 on the entries the stream will deliver: the value of
`entry` and of `is_forge` when the loop is left, and the entries the stream has
not delivered by then. -/
def zipScan : List wxZipEntry → Option wxZipEntry × Bool × List wxZipEntry
  | [] => (none, false, [])
  | entry :: rest =>
    if EndsWith entry.GetInternalName "mcmod.info" then (some entry, false, rest)
    else if EndsWith entry.GetInternalName "forgeversion.properties" then
      (some entry, true, rest)
    else zipScan rest

/-- The test of line 76 on an entry. -/
abbrev isModInfo (entry : wxZipEntry) : Bool :=
  EndsWith entry.GetInternalName "mcmod.info"

/-- The test of line 78 on an entry. -/
abbrev isForgeInfo (entry : wxZipEntry) : Bool :=
  EndsWith entry.GetInternalName "forgeversion.properties"

/-- Lines 101–126 of the `MOD_FOLDER` case: the value of `infoFile` at line 128,
or `none` when the case is left at line 111. -/
def folderInfoFile (lib : Library) (fs : FileSystem) (modFile : wxFileName) :
    Option String :=
  let infoFile := lib.Combine modFile.GetFullPath "mcmod.info"
  if !wxFileExists fs infoFile then
    match wxDir fs modFile.GetFullPath with
    | none => none
    | some names =>
      match names.find? (fun currentFile => EndsWith currentFile "mcmod.info") with
      | some currentFile => some (lib.Combine modFile.GetFullPath currentFile)
      | none => some ""
  else some infoFile

/-- The record after lines 41–58: only `modFile`, `modName` and `modType` are
assigned, the other strings are default-constructed. -/
def initialMod (fs : FileSystem) (file : wxFileName) (type : ModType) : Mod :=
  { modFile := file
    modName := file.GetName
    modID := ""
    modVersion := ""
    mcVersion := ""
    modType := detectType fs file type }

/-- The constructor `Mod::Mod(file, type)`. -/
def Mod.Mod (lib : Library) (fs : FileSystem) (file : wxFileName) (type : ModType) :
    Outcome :=
  let self := initialMod fs file type
  match self.modType with
  | MOD_ZIPFILE =>
    match zipScan (openZip fs self.modFile.GetFullPath) with
    | (some entry, is_forge, _) =>
      let infoFileData := entry.content
      if !is_forge then ReadModInfoData lib self infoFileData
      else ReadForgeInfoData lib self infoFileData
    | (none, _, _) => .returned self
  | MOD_FOLDER =>
    match folderInfoFile lib fs self.modFile with
    | none => .returned self
    | some infoFile =>
      if infoFile != "" && wxFileExists fs infoFile then
        ReadModInfoData lib self (readAll fs infoFile)
      else .returned self
  | _ => .returned self

/-! ## Vocabulary of the claims -/

/-- The first child of `pt` with key `key` is a leaf carrying `value`: as a JSON
object, `pt` has the string field `key` with value `value`. -/
def ptree.hasStringField (pt : ptree) (key value : String) : Bool :=
  match pt.children.find? (fun kv => kv.1 == key) with
  | some (_, ptree.node d []) => d == value
  | _ => false

/-- No child of `pt` has the key `key`. -/
def ptree.lacksKey (pt : ptree) (key : String) : Prop :=
  ∀ kv ∈ pt.children, kv.1 ≠ key

/-- The value of `key` among the children of the root of an INI tree: the data
of the last child with that key, the empty string when there is none. -/
def iniValue (root : ptree) (key : String) : String :=
  match root.children.reverse.find? (fun kv => kv.1 == key) with
  | some kv => kv.2.data
  | none => ""

/-! ## A reference instance of the library

The theorems below hold for every `Library`. To run the operations on the texts
of concrete descriptors, this section gives one instance: readers for a part of
JSON and for INI text that build the trees the boost readers build.
-/

namespace Reference

/-- White space as both readers skip it. -/
def isWs (c : Char) : Bool :=
  c == ' ' || c == '\n' || c == '\t' || c == '\r'

/-- Drop leading white space. -/
def skipWs : List Char → List Char
  | [] => []
  | c :: cs => if isWs c then skipWs cs else c :: cs

/-- Read a JSON string whose opening quote has been consumed; `acc` holds the
characters read so far, last first. Of the escapes only `\"`, `\\` and `\/`
are accepted. -/
def readString : List Char → List Char → Option (String × List Char)
  | [], _ => none
  | c :: cs, acc =>
    if c = '"' then some (String.mk acc.reverse, cs)
    else if c = '\\' then
      match cs with
      | [] => none
      | e :: cs' =>
        if e = '"' ∨ e = '\\' ∨ e = '/' then readString cs' (e :: acc) else none
    else readString cs (c :: acc)

mutual

/-- Read one JSON value: a string becomes a leaf carrying it, an array a node
whose children have the empty key, an object a node whose children are keyed
by the member names. -/
def readValue : Nat → List Char → Option (ptree × List Char)
  | 0, _ => none
  | fuel + 1, cs =>
    match skipWs cs with
    | [] => none
    | c :: rest =>
      if c = '"' then
        match readString rest [] with
        | some (s, r) => some (ptree.node s [], r)
        | none => none
      else if c = '[' then
        match skipWs rest with
        | [] => none
        | d :: r =>
          if d = ']' then some (ptree.node "" [], r)
          else
            match readElements fuel (d :: r) [] with
            | some (xs, r') => some (ptree.node "" xs, r')
            | none => none
      else if c = '\x7b' then
        match skipWs rest with
        | [] => none
        | d :: r =>
          if d = '\x7d' then some (ptree.node "" [], r)
          else
            match readMembers fuel (d :: r) [] with
            | some (xs, r') => some (ptree.node "" xs, r')
            | none => none
      else none

/-- Read the elements of an array up to its closing bracket. -/
def readElements : Nat → List Char → List (String × ptree) →
    Option (List (String × ptree) × List Char)
  | 0, _, _ => none
  | fuel + 1, cs, acc =>
    match readValue fuel cs with
    | none => none
    | some (v, r) =>
      match skipWs r with
      | [] => none
      | d :: r' =>
        if d = ',' then readElements fuel r' (("", v) :: acc)
        else if d = ']' then some ((("", v) :: acc).reverse, r')
        else none

/-- Read the members of an object up to its closing brace. -/
def readMembers : Nat → List Char → List (String × ptree) →
    Option (List (String × ptree) × List Char)
  | 0, _, _ => none
  | fuel + 1, cs, acc =>
    match skipWs cs with
    | [] => none
    | q :: r0 =>
      if q = '"' then
        match readString r0 [] with
        | none => none
        | some (k, r1) =>
          match skipWs r1 with
          | [] => none
          | colon :: r2 =>
            if colon = ':' then
              match readValue fuel r2 with
              | none => none
              | some (v, r3) =>
                match skipWs r3 with
                | [] => none
                | d :: r4 =>
                  if d = ',' then readMembers fuel r4 ((k, v) :: acc)
                  else if d = '\x7d' then some (((k, v) :: acc).reverse, r4)
                  else none
            else none
      else none

end

/-- A reader for the part of JSON made of strings, arrays and objects, building
the tree `boost::property_tree::read_json` builds; any other text is a
`json_parser_error`. -/
def read_json (text : String) : Except Exn ptree :=
  match readValue (text.data.length + 1) text.data with
  | some (v, r) => if skipWs r = [] then .ok v else .error Exn.json_parser_error
  | none => .error Exn.json_parser_error


/-- The lines of a text, as successive `std::getline` calls deliver them; `cur`
holds the characters of the line being read, last first. -/
def splitLines : List Char → List Char → List (List Char)
  | [], cur => [cur.reverse]
  | c :: cs, cur =>
    if c = '\n' then cur.reverse :: splitLines cs [] else splitLines cs (c :: cur)

/-- Remove white space at both ends. -/
def trim (l : List Char) : List Char :=
  ((l.dropWhile isWs).reverse.dropWhile isWs).reverse

/-- The state of the INI reader: the children of the root pushed so far (without
the section under construction), and the section under construction, if any,
with its name and its keys so far. -/
structure IniState where
  root : List (String × ptree)
  current : Option (String × List (String × ptree))

/-- The children of the root once the section under construction is closed: an
empty section is dropped. -/
def IniState.flush (st : IniState) : List (String × ptree) :=
  match st.current with
  | none => st.root
  | some (k, items) => if items.isEmpty then st.root else st.root ++ [(k, ptree.node "" items)]

/-- Whether `find(key)` finds a child. -/
def hasKey (items : List (String × ptree)) (key : String) : Bool :=
  items.any (fun kv => kv.1 == key)

/-- One line of INI text: blank lines and comments are skipped, `[name]` opens a
section, `key=value` adds a leaf to the open section or, before any section, to
the root; a duplicate name, a missing `]`, a missing `=` or an empty key is an
`ini_parser_error`. -/
def iniLine (st : IniState) (raw : List Char) : Except Exn IniState :=
  match trim raw with
  | [] => .ok st
  | c :: rest =>
    if c = ';' ∨ c = '#' then .ok st
    else if c = '[' then
      let root := st.flush
      if rest.contains ']' then
        let key := String.mk (trim (rest.takeWhile (fun x => x != ']')))
        if hasKey root key then .error Exn.ini_parser_error
        else .ok { root := root, current := some (key, []) }
      else .error Exn.ini_parser_error
    else
      let line := c :: rest
      let before := line.takeWhile (fun x => x != '=')
      let after := line.dropWhile (fun x => x != '=')
      match after with
      | [] => .error Exn.ini_parser_error
      | _ :: value =>
        if before.isEmpty then .error Exn.ini_parser_error
        else
          let key := String.mk (trim before)
          let data := String.mk (trim value)
          match st.current with
          | none =>
            if hasKey st.root key then .error Exn.ini_parser_error
            else .ok { st with root := st.root ++ [(key, ptree.node data [])] }
          | some (name, items) =>
            if hasKey items key then .error Exn.ini_parser_error
            else .ok { st with current := some (name, items ++ [(key, ptree.node data [])]) }

/-- All lines in turn, stopping at the first error. -/
def iniLines : IniState → List (List Char) → Except Exn IniState
  | st, [] => .ok st
  | st, l :: ls =>
    match iniLine st l with
    | .ok st' => iniLines st' ls
    | .error e => .error e

/-- A reader for INI text, building the tree `boost::property_tree::read_ini`
builds: keys before the first section are children of the root, keyed by the
whole key text. -/
def read_ini (text : String) : Except Exn ptree :=
  match iniLines { root := [], current := none } (splitLines text.data []) with
  | .ok st => .ok (ptree.node "" st.flush)
  | .error e => .error e

/-- The components of a directory path, split at `/`; `cur` holds the characters
of the component being read, last first. -/
def splitPath : List Char → List Char → List String
  | [], cur => [String.mk cur.reverse]
  | c :: cs, cur =>
    if c = '/' then String.mk cur.reverse :: splitPath cs [] else splitPath cs (c :: cur)

/-- Drop the components `.` and the empty ones, and let `..` cancel the component
before it; `acc` holds the components kept, last first. -/
def squeezeDots : List String → List String → List String
  | [], acc => acc.reverse
  | d :: rest, acc =>
    if d = "." ∨ d = "" then squeezeDots rest acc
    else if d = ".." then squeezeDots rest acc.tail
    else squeezeDots rest (d :: acc)

/-- Whether a directory path starts at the root. -/
def isAbsolute (path : String) : Bool :=
  match path.data with
  | c :: _ => c == '/'
  | [] => false

/-- Normalisation of a file name on a case-sensitive file system, with `cwd` the
current working directory: a relative directory part is taken from `cwd`, then
`.` and `..` are removed. Name and extension are kept. -/
def Normalize (cwd : String) (f : wxFileName) : wxFileName :=
  let dirs :=
    if isAbsolute f.path then splitPath f.path.data []
    else splitPath cwd.data [] ++ splitPath f.path.data []
  { f with path := String.intercalate "/" ("" :: squeezeDots dirs []) }

/-- The reference library: the two readers above, paths combined with a
separator, names normalised from the working directory `/srv/minecraft`, and a
file system without links, in which no two names share an inode. -/
def library : Library :=
  { read_json := read_json
    read_ini := read_ini
    Combine := fun a b => a ++ "/" ++ b
    Normalize := Normalize "/srv/minecraft"
    sameInode := fun _ _ => false }

end Reference

/-! ## Concrete inputs -/

namespace Example

/-- The descriptor of the spec's archive example. -/
def modInfoText : String :=
  "[\x7b\"modid\":\"foo\",\"name\":\"Foo Mod\",\"version\":\"1.2\"\x7d]"

/-- A descriptor whose first element has no `"name"`. -/
def noNameText : String :=
  "[\x7b\"modid\":\"foo\",\"version\":\"1.2\"\x7d]"

/-- A descriptor cut off inside its array. -/
def truncatedText : String :=
  "[\x7b\"modid\":\"foo\",\"name\":\"Foo Mod\""

/-- A descriptor with a second element after the one of `modInfoText`. -/
def twoElementsText : String :=
  "[\x7b\"modid\":\"foo\",\"name\":\"Foo Mod\",\"version\":\"1.2\"\x7d, \x7b\"modid\":\"bar\"\x7d]"

/-- The properties of the spec's Forge example: no build number. -/
def forgeText : String :=
  "forge.major.number=1\nforge.minor.number=2\nforge.revision.number=3\n"

/-- The archive `mods/foo.jar`. -/
def fooJar : wxFileName := { path := "mods", name := "foo", ext := "jar", hasExt := true }

/-- The archive `mods/forge.ZIP`. -/
def forgeZip : wxFileName := { path := "mods", name := "forge", ext := "ZIP", hasExt := true }

/-- The archive `mods/plain.zip`, which holds no descriptor. -/
def plainZip : wxFileName := { path := "mods", name := "plain", ext := "zip", hasExt := true }

/-- The regular file `mods/notes.txt`. -/
def notesTxt : wxFileName := { path := "mods", name := "notes", ext := "txt", hasExt := true }

/-- The directory `mods/pack.zip`. -/
def packDir : wxFileName := { path := "mods", name := "pack", ext := "zip", hasExt := true }

/-- The path `mods/gone.zip`, which names nothing. -/
def goneZip : wxFileName := { path := "mods", name := "gone", ext := "zip", hasExt := true }

/-- The entry `data/mcmod.info` of both archives. -/
def modInfoEntry : wxZipEntry := { internalName := "data/mcmod.info", content := modInfoText }

/-- The entry `META-INF/forgeversion.properties` of both archives. -/
def forgeEntry : wxZipEntry :=
  { internalName := "META-INF/forgeversion.properties", content := forgeText }

/-- An entry that is no descriptor. -/
def readmeEntry : wxZipEntry := { internalName := "README.txt", content := "read me" }

/-- The entries of `mods/forge.ZIP`: the Forge properties come first. -/
def forgeZipEntries : List wxZipEntry := [readmeEntry, forgeEntry, modInfoEntry]

/-- The entries of `mods/foo.jar`: the JSON descriptor comes first. -/
def fooJarEntries : List wxZipEntry := [readmeEntry, modInfoEntry, forgeEntry]

/-- A file system with the two archives, an archive without descriptor, a text
file whose content is a valid descriptor, and a directory named like an
archive. -/
def fs : FileSystem := fun p =>
  if p = "mods/foo.jar" then some (.file "PK" fooJarEntries)
  else if p = "mods/forge.ZIP" then some (.file "PK" forgeZipEntries)
  else if p = "mods/plain.zip" then some (.file "PK" [readmeEntry])
  else if p = "mods/notes.txt" then some (.file modInfoText [])
  else if p = "mods/pack.zip" then some (.dir true ["readme.md"])
  else none

/-- A record with empty descriptor fields. -/
def blank : Mod :=
  { modFile := notesTxt
    modName := "notes"
    modID := ""
    modVersion := ""
    mcVersion := ""
    modType := MOD_SINGLEFILE }

end Example

/-! ## Lemmas on the archive scan -/

/-- No name ends with both suffixes: the last characters differ. -/
theorem endsWith_modinfo_not_forge (s : String) (h : EndsWith s "mcmod.info" = true) :
    EndsWith s "forgeversion.properties" = false := by
  have h1 : List.isPrefixOf "mcmod.info".data.reverse s.data.reverse = true := h
  show List.isPrefixOf "forgeversion.properties".data.reverse s.data.reverse = false
  have e1 : "mcmod.info".data.reverse = 'o' :: "mcmod.inf".data.reverse := by decide
  have e2 : "forgeversion.properties".data.reverse
      = 's' :: "forgeversion.propertie".data.reverse := by decide
  rw [e1] at h1
  rw [e2]
  cases hl : s.data.reverse with
  | nil => rw [hl] at h1; simp [List.isPrefixOf] at h1
  | cons c t =>
    rw [hl] at h1
    simp only [List.isPrefixOf, Bool.and_eq_true, beq_iff_eq] at h1
    have hc : ('s' == c) = false := by
      rw [← h1.1]; decide
    simp [List.isPrefixOf, hc]

/-- Entries matching neither suffix are passed over. -/
theorem zipScan_append (pre l : List wxZipEntry)
    (hpre : ∀ x ∈ pre, isModInfo x = false ∧ isForgeInfo x = false) :
    zipScan (pre ++ l) = zipScan l := by
  induction pre with
  | nil => rfl
  | cons a pre ih =>
    have ha := hpre a (List.mem_cons_self a pre)
    have h1 : EndsWith a.GetInternalName "mcmod.info" = false := ha.1
    have h2 : EndsWith a.GetInternalName "forgeversion.properties" = false := ha.2
    simp only [List.cons_append, zipScan, h1, h2, Bool.false_eq_true, if_false]
    exact ih (fun x hx => hpre x (List.mem_cons_of_mem a hx))

/-- The scan on a list whose first entry matches a suffix. -/
theorem zipScan_cons (e : wxZipEntry) (rest : List wxZipEntry)
    (he : isModInfo e = true ∨ isForgeInfo e = true) :
    zipScan (e :: rest) = (some e, isForgeInfo e, rest) := by
  by_cases h1 : EndsWith e.GetInternalName "mcmod.info" = true
  · have h2 := endsWith_modinfo_not_forge _ h1
    simp only [zipScan, isForgeInfo, h1, h2, if_true]
  · have h2 : EndsWith e.GetInternalName "forgeversion.properties" = true := by
      rcases he with he | he
      · exact absurd he h1
      · exact he
    simp only [zipScan, isForgeInfo, h1, h2, if_true, if_false, Bool.false_eq_true]

/-- The scan either finds no matching entry, or stops at the earliest one. -/
theorem zipScan_cases (entries : List wxZipEntry) :
    ((∀ x ∈ entries, isModInfo x = false ∧ isForgeInfo x = false) ∧
        zipScan entries = (none, false, [])) ∨
    (∃ pre e rest, entries = pre ++ e :: rest ∧
        (∀ x ∈ pre, isModInfo x = false ∧ isForgeInfo x = false) ∧
        (isModInfo e = true ∨ isForgeInfo e = true) ∧
        zipScan entries = (some e, isForgeInfo e, rest)) := by
  induction entries with
  | nil => left; exact ⟨fun x hx => absurd hx (List.not_mem_nil x), rfl⟩
  | cons a l ih =>
    by_cases ha : isModInfo a = true ∨ isForgeInfo a = true
    · right
      exact ⟨[], a, l, rfl, fun x hx => absurd hx (List.not_mem_nil x), ha,
        zipScan_cons a l ha⟩
    · have ha1 : isModInfo a = false := by
        cases h : isModInfo a with
        | false => rfl
        | true => exact absurd (Or.inl h) ha
      have ha2 : isForgeInfo a = false := by
        cases h : isForgeInfo a with
        | false => rfl
        | true => exact absurd (Or.inr h) ha
      have hstep : zipScan (a :: l) = zipScan l :=
        zipScan_append [a] l (fun x hx => by
          rw [List.mem_singleton] at hx; subst hx; exact ⟨ha1, ha2⟩)
      rcases ih with ⟨hall, hz⟩ | ⟨pre, e, rest, hsplit, hpre, he, hz⟩
      · left
        refine ⟨fun x hx => ?_, by rw [hstep, hz]⟩
        rcases List.mem_cons.mp hx with rfl | hx
        · exact ⟨ha1, ha2⟩
        · exact hall x hx
      · right
        refine ⟨a :: pre, e, rest, by rw [hsplit]; rfl, fun x hx => ?_, he, by rw [hstep, hz]⟩
        rcases List.mem_cons.mp hx with rfl | hx
        · exact ⟨ha1, ha2⟩
        · exact hpre x hx

/-- The constructor on an archive: the scan, then the parser `is_forge` names. -/
theorem ctor_zip (lib : Library) (fs : FileSystem) (file : wxFileName) (type : ModType)
    (hkind : detectType fs file type = MOD_ZIPFILE) :
    Mod.Mod lib fs file type =
      match zipScan (openZip fs file.GetFullPath) with
      | (some entry, is_forge, _) =>
        if is_forge then ReadForgeInfoData lib (initialMod fs file type) entry.content
        else ReadModInfoData lib (initialMod fs file type) entry.content
      | (none, _, _) => .returned (initialMod fs file type) := by
  have hm : (initialMod fs file type).modType = MOD_ZIPFILE := hkind
  have hf : (initialMod fs file type).modFile = file := rfl
  unfold Mod.Mod
  simp only [hm, hf]
  rcases hz : zipScan (openZip fs file.GetFullPath) with ⟨_ | entry, is_forge, r⟩
  · rfl
  · cases is_forge <;> rfl

/-! ## Lemmas on the parsers and the constructor -/

/-- Both `catch` clauses together take every exception of the parsers. -/
theorem catchPtree_thrown (m : Mod) (e : Exn) :
    catchPtree (m, .thrown e) = .returned m := by
  cases e <;> rfl

/-- The `try` body of `ReadModInfoData` writes to no member other than `modID`,
`modName` and `modVersion`. -/
theorem ReadModInfoData_try_frame (lib : Library) (self : Mod) (info : String) :
    (ReadModInfoData_try lib self info).1.modType = self.modType ∧
    (ReadModInfoData_try lib self info).1.modFile = self.modFile ∧
    (ReadModInfoData_try lib self info).1.mcVersion = self.mcVersion := by
  unfold ReadModInfoData_try
  dsimp only
  repeat' split
  all_goals exact ⟨rfl, rfl, rfl⟩

/-- The parser `ReadModInfoData` lets no exception out: it returns, with storage
kind and path as before, unless it runs into the undefined dereference. -/
theorem ReadModInfoData_cases (lib : Library) (self : Mod) (info : String) :
    ReadModInfoData lib self info = .undefined ∨
    ∃ m, ReadModInfoData lib self info = .returned m ∧ m.modType = self.modType ∧
      m.modFile = self.modFile := by
  have hframe := ReadModInfoData_try_frame lib self info
  unfold ReadModInfoData
  rcases hr : ReadModInfoData_try lib self info with ⟨m, c⟩
  rw [hr] at hframe
  cases c with
  | normal => right; exact ⟨m, rfl, hframe.1, hframe.2.1⟩
  | thrown e => right; exact ⟨m, catchPtree_thrown m e, hframe.1, hframe.2.1⟩
  | undefined => left; rfl

/-- The parser `ReadForgeInfoData` always returns, with storage kind and path as
before. -/
theorem ReadForgeInfoData_cases (lib : Library) (self : Mod) (info : String) :
    ∃ m, ReadForgeInfoData lib self info = .returned m ∧ m.modType = self.modType ∧
      m.modFile = self.modFile := by
  unfold ReadForgeInfoData ReadForgeInfoData_try
  cases lib.read_ini (cStr info) with
  | error e => exact ⟨_, catchPtree_thrown _ e, rfl, rfl⟩
  | ok root => exact ⟨_, rfl, rfl, rfl⟩

/-- The constructor when the storage kind is neither archive nor folder: no
parser is called. -/
theorem ctor_plain (lib : Library) (fs : FileSystem) (file : wxFileName) (type : ModType)
    (hkind : detectType fs file type = MOD_SINGLEFILE ∨
      detectType fs file type = MOD_UNKNOWN) :
    Mod.Mod lib fs file type = .returned (initialMod fs file type) := by
  unfold Mod.Mod
  have hm : (initialMod fs file type).modType = detectType fs file type := rfl
  rcases hkind with h | h <;> simp only [hm, h]

/-- The constructor on a folder (lines 99–137). -/
theorem ctor_folder (lib : Library) (fs : FileSystem) (file : wxFileName) (type : ModType)
    (hkind : detectType fs file type = MOD_FOLDER) :
    Mod.Mod lib fs file type =
      match folderInfoFile lib fs file with
      | none => .returned (initialMod fs file type)
      | some infoFile =>
        if (infoFile != "" && wxFileExists fs infoFile) = true then
          ReadModInfoData lib (initialMod fs file type) (readAll fs infoFile)
        else .returned (initialMod fs file type) := by
  have hm : (initialMod fs file type).modType = MOD_FOLDER := hkind
  have hf : (initialMod fs file type).modFile = file := rfl
  unfold Mod.Mod
  simp only [hm, hf]

/-- The constructor lets no exception out, and what it returns has the storage
kind decided at line 58 and the path it was given. -/
theorem ctor_cases (lib : Library) (fs : FileSystem) (file : wxFileName) (type : ModType) :
    Mod.Mod lib fs file type = .undefined ∨
    ∃ m, Mod.Mod lib fs file type = .returned m ∧ m.modType = detectType fs file type ∧
      m.modFile = file := by
  have hinit : (∃ m, Outcome.returned (initialMod fs file type) = .returned m ∧
      m.modType = detectType fs file type ∧ m.modFile = file) := ⟨_, rfl, rfl, rfl⟩
  have hjson : ∀ info, ReadModInfoData lib (initialMod fs file type) info = .undefined ∨
      ∃ m, ReadModInfoData lib (initialMod fs file type) info = .returned m ∧
        m.modType = detectType fs file type ∧ m.modFile = file :=
    fun info => ReadModInfoData_cases lib (initialMod fs file type) info
  have hini : ∀ info, ∃ m, ReadForgeInfoData lib (initialMod fs file type) info
      = .returned m ∧ m.modType = detectType fs file type ∧ m.modFile = file :=
    fun info => ReadForgeInfoData_cases lib (initialMod fs file type) info
  cases hk : detectType fs file type with
  | MOD_UNKNOWN =>
    rw [ctor_plain lib fs file type (Or.inr hk), ← hk]; exact Or.inr hinit
  | MOD_SINGLEFILE =>
    rw [ctor_plain lib fs file type (Or.inl hk), ← hk]; exact Or.inr hinit
  | MOD_ZIPFILE =>
    rw [← hk, ctor_zip lib fs file type hk]
    rcases zipScan (openZip fs file.GetFullPath) with ⟨_ | entry, is_forge, r⟩
    · exact Or.inr hinit
    · cases is_forge
      · exact hjson entry.content
      · exact Or.inr (hini entry.content)
  | MOD_FOLDER =>
    rw [← hk, ctor_folder lib fs file type hk]
    cases folderInfoFile lib fs file with
    | none => exact Or.inr hinit
    | some infoFile =>
      by_cases hc : (infoFile != "" && wxFileExists fs infoFile) = true
      · simp only [hc, if_true]; exact hjson _
      · simp only [hc, if_false]; exact Or.inr hinit

/-! ## The archive scan (claims C1 and C10) -/

/-- C10: on an archive, the scan of lines 71–83 either finds no entry whose name
ends with `mcmod.info` or `forgeversion.properties`, and then the constructor
returns the record with its initial fields, no parser being called; or it stops
at the earliest such entry `e`, the entries after `e` being left undelivered in
the stream, `is_forge` is true exactly when the name of `e` ends with
`forgeversion.properties`, and the constructor's result is that of
`ReadForgeInfoData` on the content of `e` when it does and of
`ReadModInfoData` otherwise. -/
theorem C10_scan_stops_at_earliest_match (lib : Library) (fs : FileSystem)
    (file : wxFileName) (type : ModType)
    (hkind : detectType fs file type = MOD_ZIPFILE) :
    ((∀ x ∈ openZip fs file.GetFullPath, isModInfo x = false ∧ isForgeInfo x = false) ∧
        zipScan (openZip fs file.GetFullPath) = (none, false, []) ∧
        Mod.Mod lib fs file type = .returned (initialMod fs file type)) ∨
    (∃ pre e rest, openZip fs file.GetFullPath = pre ++ e :: rest ∧
        (∀ x ∈ pre, isModInfo x = false ∧ isForgeInfo x = false) ∧
        (isModInfo e = true ∨ isForgeInfo e = true) ∧
        zipScan (openZip fs file.GetFullPath) = (some e, isForgeInfo e, rest) ∧
        Mod.Mod lib fs file type =
          if isForgeInfo e = true then ReadForgeInfoData lib (initialMod fs file type) e.content
          else ReadModInfoData lib (initialMod fs file type) e.content) := by
  have hctor := ctor_zip lib fs file type hkind
  rcases zipScan_cases (openZip fs file.GetFullPath) with
    ⟨hall, hz⟩ | ⟨pre, e, rest, hsplit, hpre, he, hz⟩
  · left
    refine ⟨hall, hz, ?_⟩
    rw [hctor, hz]
  · right
    refine ⟨pre, e, rest, hsplit, hpre, he, hz, ?_⟩
    rw [hctor, hz]

/-- C10 on `mods/forge.ZIP`, whose entries are a read-me, the Forge properties
and a JSON descriptor, in this order. -/
theorem C10_scan_stops_at_earliest_match_witness :
    detectType Example.fs Example.forgeZip MOD_UNKNOWN = MOD_ZIPFILE ∧
    (((∀ x ∈ openZip Example.fs Example.forgeZip.GetFullPath,
          isModInfo x = false ∧ isForgeInfo x = false) ∧
        zipScan (openZip Example.fs Example.forgeZip.GetFullPath) = (none, false, []) ∧
        Mod.Mod Reference.library Example.fs Example.forgeZip MOD_UNKNOWN
          = .returned (initialMod Example.fs Example.forgeZip MOD_UNKNOWN)) ∨
      (∃ pre e rest, openZip Example.fs Example.forgeZip.GetFullPath = pre ++ e :: rest ∧
        (∀ x ∈ pre, isModInfo x = false ∧ isForgeInfo x = false) ∧
        (isModInfo e = true ∨ isForgeInfo e = true) ∧
        zipScan (openZip Example.fs Example.forgeZip.GetFullPath)
          = (some e, isForgeInfo e, rest) ∧
        Mod.Mod Reference.library Example.fs Example.forgeZip MOD_UNKNOWN =
          if isForgeInfo e = true then
            ReadForgeInfoData Reference.library
              (initialMod Example.fs Example.forgeZip MOD_UNKNOWN) e.content
          else
            ReadModInfoData Reference.library
              (initialMod Example.fs Example.forgeZip MOD_UNKNOWN) e.content)) :=
  ⟨by decide,
    C10_scan_stops_at_earliest_match Reference.library Example.fs Example.forgeZip
      MOD_UNKNOWN (by decide)⟩

/-- C1, refuted as stated: in `mods/forge.ZIP` an entry name ends with
`mcmod.info`, yet the entry selected is the Forge properties stored before it,
and the record is the one `ReadForgeInfoData` builds. -/
theorem C1_counterexample :
    (∃ e ∈ Example.forgeZipEntries, isModInfo e = true) ∧
    Example.forgeZipEntries.find? isModInfo = some Example.modInfoEntry ∧
    zipScan Example.forgeZipEntries
      = (some Example.forgeEntry, true, [Example.modInfoEntry]) ∧
    (zipScan Example.forgeZipEntries).1 ≠ Example.forgeZipEntries.find? isModInfo ∧
    Mod.Mod Reference.library Example.fs Example.forgeZip MOD_UNKNOWN
      = .returned
          { modFile := Example.forgeZip
            modName := "Minecraft Forge"
            modID := "Forge"
            modVersion := "1.2.3."
            mcVersion := ""
            modType := MOD_ZIPFILE } := by
  refine ⟨⟨Example.modInfoEntry, by decide, by decide⟩, by decide, by decide, by decide,
    by decide⟩

/-- C1, amended: on an archive, (1) an entry whose name ends with `mcmod.info`
and before which no entry name ends with `mcmod.info` or with
`forgeversion.properties` is the entry selected, and the constructor's result
is that of `ReadModInfoData` on its content; (2) when the scan selects an entry
as Forge descriptor, its name ends with `forgeversion.properties`, no entry
stored before it has a name ending with `mcmod.info`, and the constructor's
result is that of `ReadForgeInfoData` on its content. -/
theorem C1_modinfo_selected_when_no_forge_before (lib : Library) (fs : FileSystem)
    (file : wxFileName) (type : ModType)
    (hkind : detectType fs file type = MOD_ZIPFILE) :
    (∀ pre e rest, openZip fs file.GetFullPath = pre ++ e :: rest →
        (∀ x ∈ pre, isModInfo x = false ∧ isForgeInfo x = false) →
        isModInfo e = true →
        zipScan (openZip fs file.GetFullPath) = (some e, false, rest) ∧
        Mod.Mod lib fs file type
          = ReadModInfoData lib (initialMod fs file type) e.content) ∧
    (∀ f rest, zipScan (openZip fs file.GetFullPath) = (some f, true, rest) →
        isForgeInfo f = true ∧
        (∃ pre, openZip fs file.GetFullPath = pre ++ f :: rest ∧
          ∀ x ∈ pre, isModInfo x = false) ∧
        Mod.Mod lib fs file type
          = ReadForgeInfoData lib (initialMod fs file type) f.content) := by
  have hctor := ctor_zip lib fs file type hkind
  constructor
  · intro pre e rest hsplit hpre he
    have hz : zipScan (openZip fs file.GetFullPath) = (some e, false, rest) := by
      rw [hsplit, zipScan_append pre _ hpre, zipScan_cons e rest (Or.inl he)]
      have : isForgeInfo e = false := endsWith_modinfo_not_forge _ he
      rw [this]
    refine ⟨hz, ?_⟩
    rw [hctor, hz]
    rfl
  · intro f rest hz
    have hres : Mod.Mod lib fs file type
        = ReadForgeInfoData lib (initialMod fs file type) f.content := by
      rw [hctor, hz]; rfl
    rcases zipScan_cases (openZip fs file.GetFullPath) with
      ⟨_, hz'⟩ | ⟨pre, e, rest', hsplit, hpre, _, hz'⟩
    · rw [hz] at hz'; cases hz'
    · rw [hz] at hz'
      injection hz' with h1 h2
      injection h2 with h2 h3
      injection h1 with h1
      subst h1 h3
      exact ⟨h2.symm, ⟨pre, hsplit, fun x hx => (hpre x hx).1⟩, hres⟩

/-- The amended C1 on `mods/foo.jar`, whose entries are a read-me, the JSON
descriptor and the Forge properties, in this order. -/
theorem C1_modinfo_selected_when_no_forge_before_witness :
    detectType Example.fs Example.fooJar MOD_UNKNOWN = MOD_ZIPFILE ∧
    zipScan (openZip Example.fs Example.fooJar.GetFullPath)
      = (some Example.modInfoEntry, false, [Example.forgeEntry]) ∧
    Mod.Mod Reference.library Example.fs Example.fooJar MOD_UNKNOWN
      = ReadModInfoData Reference.library
          (initialMod Example.fs Example.fooJar MOD_UNKNOWN) Example.modInfoText :=
  ⟨by decide,
    (C1_modinfo_selected_when_no_forge_before Reference.library Example.fs Example.fooJar
      MOD_UNKNOWN (by decide)).1 [Example.readmeEntry] Example.modInfoEntry
      [Example.forgeEntry] (by decide) (by decide) (by decide)⟩

/-! ## Storage kind and initial fields (claims C5 to C8) -/

/-- A path naming a regular file names no directory. -/
theorem wxDirExists_of_wxFileExists (fs : FileSystem) (path : String)
    (h : wxFileExists fs path = true) : wxDirExists fs path = false := by
  unfold wxFileExists at h
  unfold wxDirExists
  split at h
  · rename_i c z hp; rw [hp]
  · exact absurd h (by decide)

/-- Auto-detection on an existing regular file (lines 48–55). -/
theorem detectType_file (fs : FileSystem) (file : wxFileName)
    (hfile : wxFileExists fs file.GetFullPath = true) :
    detectType fs file MOD_UNKNOWN =
      if Lower file.GetExt = "zip" ∨ Lower file.GetExt = "jar" then MOD_ZIPFILE
      else MOD_SINGLEFILE := by
  have hdir := wxDirExists_of_wxFileExists fs _ hfile
  unfold detectType
  simp only [if_true, hdir, hfile, Bool.false_eq_true, if_false, Bool.or_eq_true,
    decide_eq_true_eq]

/-- C5, refuted as stated: `mods/gone.zip` names no directory and has the
extension `zip`, yet the constructed record has the kind `MOD_UNKNOWN`, which is
neither Archive nor any of the three storage kinds: the path names no file
either, and line 48 guards the test of the extension. -/
theorem C5_counterexample :
    wxDirExists Example.fs Example.goneZip.GetFullPath = false ∧
    wxFileExists Example.fs Example.goneZip.GetFullPath = false ∧
    Lower Example.goneZip.GetExt = "zip" ∧
    Mod.Mod Reference.library Example.fs Example.goneZip MOD_UNKNOWN
      = .returned
          { modFile := Example.goneZip
            modName := "gone"
            modID := ""
            modVersion := ""
            mcVersion := ""
            modType := MOD_UNKNOWN } := by
  refine ⟨by decide, by decide, by decide, by decide⟩

/-- C5, amended: under auto-detection, for a path that names a regular file or a
directory, (1) when it names a regular file whose lower-cased extension is
`zip` or `jar`, the kind assigned at line 58 is `MOD_ZIPFILE`, and so is the kind
of the record the constructor returns; (2) in every case the kind assigned, and
the kind of the record returned, is one of `MOD_SINGLEFILE`, `MOD_ZIPFILE`,
`MOD_FOLDER`. The constructor lets no exception out; it returns unless the JSON
parser dereferences the first element of an empty root. -/
theorem C5_existing_path_kind (lib : Library) (fs : FileSystem) (file : wxFileName)
    (hexists : wxDirExists fs file.GetFullPath = true ∨
      wxFileExists fs file.GetFullPath = true) :
    (wxFileExists fs file.GetFullPath = true →
        (Lower file.GetExt = "zip" ∨ Lower file.GetExt = "jar") →
        detectType fs file MOD_UNKNOWN = MOD_ZIPFILE ∧
        (Mod.Mod lib fs file MOD_UNKNOWN = .undefined ∨
          ∃ m, Mod.Mod lib fs file MOD_UNKNOWN = .returned m ∧ m.modType = MOD_ZIPFILE)) ∧
    ((detectType fs file MOD_UNKNOWN = MOD_SINGLEFILE ∨
        detectType fs file MOD_UNKNOWN = MOD_ZIPFILE ∨
        detectType fs file MOD_UNKNOWN = MOD_FOLDER) ∧
      (Mod.Mod lib fs file MOD_UNKNOWN = .undefined ∨
        ∃ m, Mod.Mod lib fs file MOD_UNKNOWN = .returned m ∧
          (m.modType = MOD_SINGLEFILE ∨ m.modType = MOD_ZIPFILE ∨
            m.modType = MOD_FOLDER))) := by
  have hkinds : detectType fs file MOD_UNKNOWN = MOD_SINGLEFILE ∨
      detectType fs file MOD_UNKNOWN = MOD_ZIPFILE ∨
      detectType fs file MOD_UNKNOWN = MOD_FOLDER := by
    rcases hexists with hdir | hfile
    · right; right
      unfold detectType
      simp only [if_true, hdir]
    · rw [detectType_file fs file hfile]
      by_cases hext : Lower file.GetExt = "zip" ∨ Lower file.GetExt = "jar"
      · right; left; simp only [hext, if_true]
      · left; simp only [hext, if_false]
  refine ⟨fun hfile hext => ?_, hkinds, ?_⟩
  · have hk : detectType fs file MOD_UNKNOWN = MOD_ZIPFILE := by
      rw [detectType_file fs file hfile]; simp only [hext, if_true]
    refine ⟨hk, ?_⟩
    rcases ctor_cases lib fs file MOD_UNKNOWN with hu | ⟨m, hm, ht, _⟩
    · exact Or.inl hu
    · exact Or.inr ⟨m, hm, by rw [ht, hk]⟩
  · rcases ctor_cases lib fs file MOD_UNKNOWN with hu | ⟨m, hm, ht, _⟩
    · exact Or.inl hu
    · exact Or.inr ⟨m, hm, by rw [ht]; exact hkinds⟩

/-- The amended C5 on `mods/forge.ZIP`, whose extension is in upper case: the
record returned has the kind `MOD_ZIPFILE`. -/
theorem C5_existing_path_kind_witness :
    wxFileExists Example.fs Example.forgeZip.GetFullPath = true ∧
    Lower Example.forgeZip.GetExt = "zip" ∧
    detectType Example.fs Example.forgeZip MOD_UNKNOWN = MOD_ZIPFILE ∧
    (Mod.Mod Reference.library Example.fs Example.forgeZip MOD_UNKNOWN = .undefined ∨
      ∃ m, Mod.Mod Reference.library Example.fs Example.forgeZip MOD_UNKNOWN = .returned m ∧
        m.modType = MOD_ZIPFILE) ∧
    Mod.Mod Reference.library Example.fs Example.forgeZip MOD_UNKNOWN ≠ .undefined :=
  ⟨by decide, by decide,
    ((C5_existing_path_kind Reference.library Example.fs Example.forgeZip
      (Or.inr (by decide))).1 (by decide) (Or.inl (by decide))).1,
    ((C5_existing_path_kind Reference.library Example.fs Example.forgeZip
      (Or.inr (by decide))).1 (by decide) (Or.inl (by decide))).2,
    by decide⟩

/-- C6: under auto-detection, for a path that names a directory, the kind
assigned at line 58 is `MOD_FOLDER`, whatever the extension, and so is the kind
of the record the constructor returns. The constructor lets no exception out;
it returns unless the JSON parser dereferences the first element of an empty
root. -/
theorem C6_directory_is_folder (lib : Library) (fs : FileSystem) (file : wxFileName)
    (hdir : wxDirExists fs file.GetFullPath = true) :
    detectType fs file MOD_UNKNOWN = MOD_FOLDER ∧
    (Mod.Mod lib fs file MOD_UNKNOWN = .undefined ∨
      ∃ m, Mod.Mod lib fs file MOD_UNKNOWN = .returned m ∧ m.modType = MOD_FOLDER) := by
  have hk : detectType fs file MOD_UNKNOWN = MOD_FOLDER := by
    unfold detectType
    simp only [if_true, hdir]
  refine ⟨hk, ?_⟩
  rcases ctor_cases lib fs file MOD_UNKNOWN with hu | ⟨m, hm, ht, _⟩
  · exact Or.inl hu
  · exact Or.inr ⟨m, hm, by rw [ht, hk]⟩

/-- C6 on the directory `mods/pack.zip`: the extension is `zip`, the kind is
`MOD_FOLDER`, and the constructor returns. -/
theorem C6_directory_is_folder_witness :
    wxDirExists Example.fs Example.packDir.GetFullPath = true ∧
    Example.packDir.GetExt = "zip" ∧
    detectType Example.fs Example.packDir MOD_UNKNOWN = MOD_FOLDER ∧
    (Mod.Mod Reference.library Example.fs Example.packDir MOD_UNKNOWN = .undefined ∨
      ∃ m, Mod.Mod Reference.library Example.fs Example.packDir MOD_UNKNOWN = .returned m ∧
        m.modType = MOD_FOLDER) ∧
    Mod.Mod Reference.library Example.fs Example.packDir MOD_UNKNOWN ≠ .undefined :=
  ⟨by decide, by decide,
    (C6_directory_is_folder Reference.library Example.fs Example.packDir (by decide)).1,
    (C6_directory_is_folder Reference.library Example.fs Example.packDir (by decide)).2,
    by decide⟩

/-- C7: under auto-detection, for a path that names a regular file whose
lower-cased extension is neither `zip` nor `jar`, the constructor returns the
record with kind `MOD_SINGLEFILE`, the name without extension as `modName`, and
empty `modID`, `modVersion` and `mcVersion`; the record is the same for every
library and every file system in which the path names a regular file, hence for
every content of the file. -/
theorem C7_single_file_no_parse (lib : Library) (fs : FileSystem) (file : wxFileName)
    (hfile : wxFileExists fs file.GetFullPath = true)
    (hzip : Lower file.GetExt ≠ "zip") (hjar : Lower file.GetExt ≠ "jar") :
    Mod.Mod lib fs file MOD_UNKNOWN
      = .returned
          { modFile := file
            modName := file.GetName
            modID := ""
            modVersion := ""
            mcVersion := ""
            modType := MOD_SINGLEFILE } ∧
    ∀ (lib' : Library) (fs' : FileSystem), wxFileExists fs' file.GetFullPath = true →
      Mod.Mod lib' fs' file MOD_UNKNOWN = Mod.Mod lib fs file MOD_UNKNOWN := by
  have key : ∀ (l : Library) (g : FileSystem), wxFileExists g file.GetFullPath = true →
      Mod.Mod l g file MOD_UNKNOWN
        = .returned
            { modFile := file
              modName := file.GetName
              modID := ""
              modVersion := ""
              mcVersion := ""
              modType := MOD_SINGLEFILE } := by
    intro l g hg
    have hk : detectType g file MOD_UNKNOWN = MOD_SINGLEFILE := by
      rw [detectType_file g file hg]
      have : ¬ (Lower file.GetExt = "zip" ∨ Lower file.GetExt = "jar") := by
        rintro (h | h)
        · exact hzip h
        · exact hjar h
      simp only [this, if_false]
    rw [ctor_plain l g file MOD_UNKNOWN (Or.inl hk)]
    unfold initialMod
    rw [hk]
  exact ⟨key lib fs hfile, fun lib' fs' h' => by rw [key lib' fs' h', key lib fs hfile]⟩

/-- C7 on `mods/notes.txt`, whose content is the valid descriptor of the spec's
example: name `notes`, empty `modID` and `modVersion`. -/
theorem C7_single_file_no_parse_witness :
    readAll Example.fs Example.notesTxt.GetFullPath = Example.modInfoText ∧
    Mod.Mod Reference.library Example.fs Example.notesTxt MOD_UNKNOWN
      = .returned
          { modFile := Example.notesTxt
            modName := "notes"
            modID := ""
            modVersion := ""
            mcVersion := ""
            modType := MOD_SINGLEFILE } :=
  ⟨by decide,
    (C7_single_file_no_parse Reference.library Example.fs Example.notesTxt
      (by decide) (by decide) (by decide)).1⟩

/-- C8, refuted as stated: for `mods/notes.txt`, of kind `MOD_SINGLEFILE`, no
parse runs, and the record has the name `notes` but an empty `modID` and an
empty `modVersion`, which are neither the name without extension nor the full
name of the file. -/
theorem C8_counterexample :
    Mod.Mod Reference.library Example.fs Example.notesTxt MOD_UNKNOWN
      = .returned
          { modFile := Example.notesTxt
            modName := "notes"
            modID := ""
            modVersion := ""
            mcVersion := ""
            modType := MOD_SINGLEFILE } ∧
    Example.notesTxt.GetName = "notes" ∧
    Example.notesTxt.GetFullName = "notes.txt" ∧
    ("" : String) ≠ Example.notesTxt.GetName ∧
    ("" : String) ≠ Example.notesTxt.GetFullName := by
  refine ⟨by decide, by decide, by decide, by decide, by decide⟩

/-- C8, amended: when no parser is called (the kind is `MOD_SINGLEFILE` or
`MOD_UNKNOWN`, or it is `MOD_ZIPFILE` and no entry name ends with `mcmod.info` or
`forgeversion.properties`, or it is `MOD_FOLDER` and neither the child
`mcmod.info` exists nor any enumerated name ends with `mcmod.info`, or the
folder cannot be opened), the constructor returns the record whose `modName` is
the file name without extension and whose `modID`, `modVersion` and `mcVersion`
are empty; on it `GetName()` is the name without extension, `GetModVersion()`
is empty and `GetModID()` is the full file name. -/
theorem C8_fields_without_parse (lib : Library) (fs : FileSystem) (file : wxFileName)
    (type : ModType)
    (hno : detectType fs file type = MOD_SINGLEFILE ∨
      detectType fs file type = MOD_UNKNOWN ∨
      (detectType fs file type = MOD_ZIPFILE ∧
        ∀ x ∈ openZip fs file.GetFullPath, isModInfo x = false ∧ isForgeInfo x = false) ∨
      (detectType fs file type = MOD_FOLDER ∧
        wxFileExists fs (lib.Combine file.GetFullPath "mcmod.info") = false ∧
        (wxDir fs file.GetFullPath = none ∨
          ∃ names, wxDir fs file.GetFullPath = some names ∧
            ∀ n ∈ names, EndsWith n "mcmod.info" = false))) :
    ∃ m, Mod.Mod lib fs file type = .returned m ∧
      m = { modFile := file
            modName := file.GetName
            modID := ""
            modVersion := ""
            mcVersion := ""
            modType := detectType fs file type } ∧
      m.GetName = file.GetName ∧ m.GetModVersion = "" ∧ m.GetModID = file.GetFullName := by
  refine ⟨initialMod fs file type, ?_, rfl, rfl, rfl, rfl⟩
  rcases hno with h | h | ⟨h, hall⟩ | ⟨h, hchild, hdir⟩
  · exact ctor_plain lib fs file type (Or.inl h)
  · exact ctor_plain lib fs file type (Or.inr h)
  · rw [ctor_zip lib fs file type h]
    rcases zipScan_cases (openZip fs file.GetFullPath) with
      ⟨_, hz⟩ | ⟨pre, e, rest, hsplit, _, he, _⟩
    · rw [hz]
    · have hmem : e ∈ openZip fs file.GetFullPath := by
        rw [hsplit]; exact List.mem_append_right pre (List.mem_cons_self e rest)
      have hne := hall e hmem
      rcases he with he | he
      · rw [hne.1] at he; exact absurd he (by decide)
      · rw [hne.2] at he; exact absurd he (by decide)
  · rw [ctor_folder lib fs file type h]
    unfold folderInfoFile
    simp only [hchild, Bool.not_false, if_true]
    rcases hdir with hd | ⟨names, hd, hnames⟩
    · rw [hd]
    · rw [hd]
      have hfind : names.find? (fun currentFile => EndsWith currentFile "mcmod.info")
          = none := by
        rw [List.find?_eq_none]
        intro n hn
        rw [hnames n hn]
        decide
      simp only [hfind]
      rfl

/-- The amended C8 on `mods/plain.zip`, an archive whose only entry is a
read-me. -/
theorem C8_fields_without_parse_witness :
    ∃ m, Mod.Mod Reference.library Example.fs Example.plainZip MOD_UNKNOWN = .returned m ∧
      m = { modFile := Example.plainZip
            modName := Example.plainZip.GetName
            modID := ""
            modVersion := ""
            mcVersion := ""
            modType := detectType Example.fs Example.plainZip MOD_UNKNOWN } ∧
      m.GetName = Example.plainZip.GetName ∧ m.GetModVersion = "" ∧
      m.GetModID = Example.plainZip.GetFullName :=
  C8_fields_without_parse Reference.library Example.fs Example.plainZip MOD_UNKNOWN
    (Or.inr (Or.inr (Or.inl ⟨by decide, by decide⟩)))

/-! ## The JSON descriptor (claims C2 and C3) -/

/-- Reading a string field that is there. -/
theorem get_of_hasStringField (pt : ptree) (key value : String) (hkey : key ≠ "")
    (h : pt.hasStringField key value = true) : pt.get key = .ok value := by
  unfold ptree.hasStringField at h
  unfold ptree.get ptree.get_child
  simp only [hkey, if_false]
  split at h
  · rename_i k d hfind
    rw [hfind]
    have hd : d = value := by simpa using h
    simp only [ptree.data, hd]
  · exact absurd h (by decide)

/-- Reading a key that is not there throws `ptree_bad_path`. -/
theorem get_of_lacksKey (pt : ptree) (key : String) (hkey : key ≠ "")
    (h : pt.lacksKey key) : pt.get key = .error Exn.ptree_bad_path := by
  have hfind : pt.children.find? (fun kv => kv.1 == key) = none := by
    rw [List.find?_eq_none]
    intro kv hkv
    have := h kv hkv
    simpa using this
  unfold ptree.get ptree.get_child
  simp only [hkey, if_false, hfind]

/-- The body of `ReadModInfoData` once the text is parsed and the root has a first
child: the three reads in turn. -/
theorem ReadModInfoData_try_first (lib : Library) (self : Mod) (info : String)
    (root : ptree) (first : String × ptree) (rest : List (String × ptree))
    (hparse : lib.read_json (cStr info) = .ok root)
    (hroot : root.children = first :: rest) :
    ReadModInfoData_try lib self info =
      match first.2.get "modid" with
      | .error e => (self, .thrown e)
      | .ok a =>
        match first.2.get "name" with
        | .error e => ({ self with modID := a }, .thrown e)
        | .ok n =>
          match first.2.get "version" with
          | .error e => ({ self with modID := a, modName := n }, .thrown e)
          | .ok v => ({ self with modID := a, modName := n, modVersion := v }, .normal) := by
  unfold ReadModInfoData_try
  have hself : root.get_child "" = .ok root := by
    unfold ptree.get_child; simp only [if_true]
  simp only [hparse, hself, hroot, List.head?, wxStr]

/-- C2: when the text parses to a tree whose first child, under the empty key of
an array element, has the string fields `modid`, `name` and `version` with
values `a`, `n` and `v`, `ReadModInfoData` returns the record with `modID`,
`modName` and `modVersion` set to `a`, `n` and `v` and every other member
unchanged; and the result is the same for every text whose tree has the same
first element, whatever the later elements. -/
theorem C2_first_element_sets_fields (lib : Library) (self : Mod) (info : String)
    (root first : ptree) (rest : List (String × ptree)) (a n v : String)
    (hparse : lib.read_json (cStr info) = .ok root)
    (harray : root.children = ("", first) :: rest)
    (hid : first.hasStringField "modid" a = true)
    (hname : first.hasStringField "name" n = true)
    (hversion : first.hasStringField "version" v = true) :
    ReadModInfoData lib self info
      = .returned { self with modID := a, modName := n, modVersion := v } ∧
    ∀ (info' : String) (root' : ptree) (rest' : List (String × ptree)),
      lib.read_json (cStr info') = .ok root' → root'.children = ("", first) :: rest' →
      ReadModInfoData lib self info' = ReadModInfoData lib self info := by
  have g1 := get_of_hasStringField first "modid" a (by decide) hid
  have g2 := get_of_hasStringField first "name" n (by decide) hname
  have g3 := get_of_hasStringField first "version" v (by decide) hversion
  have key : ∀ (i : String) (r : ptree) (rs : List (String × ptree)),
      lib.read_json (cStr i) = .ok r → r.children = ("", first) :: rs →
      ReadModInfoData lib self i
        = .returned { self with modID := a, modName := n, modVersion := v } := by
    intro i r rs hp hr
    unfold ReadModInfoData
    rw [ReadModInfoData_try_first lib self i r ("", first) rs hp hr]
    simp only [g1, g2, g3]
    rfl
  exact ⟨key info root rest hparse harray,
    fun info' root' rest' hp hr => by rw [key info' root' rest' hp hr,
      key info root rest hparse harray]⟩

/-- C2 on the descriptor of the spec's example, read by the reference reader:
`modID` is `foo`, `modName` is `Foo Mod`, `modVersion` is `1.2`; and a text with
a second array element gives the same record. -/
theorem C2_first_element_sets_fields_witness :
    ReadModInfoData Reference.library Example.blank Example.modInfoText
      = .returned
          { Example.blank with modID := "foo", modName := "Foo Mod", modVersion := "1.2" } ∧
    ReadModInfoData Reference.library Example.blank Example.twoElementsText
      = ReadModInfoData Reference.library Example.blank Example.modInfoText :=
  ⟨(C2_first_element_sets_fields Reference.library Example.blank Example.modInfoText
      (ptree.node "" [("", ptree.node "" [("modid", ptree.node "foo" []),
        ("name", ptree.node "Foo Mod" []), ("version", ptree.node "1.2" [])])])
      (ptree.node "" [("modid", ptree.node "foo" []),
        ("name", ptree.node "Foo Mod" []), ("version", ptree.node "1.2" [])])
      [] "foo" "Foo Mod" "1.2" rfl rfl rfl rfl rfl).1,
    (C2_first_element_sets_fields Reference.library Example.blank Example.modInfoText
      (ptree.node "" [("", ptree.node "" [("modid", ptree.node "foo" []),
        ("name", ptree.node "Foo Mod" []), ("version", ptree.node "1.2" [])])])
      (ptree.node "" [("modid", ptree.node "foo" []),
        ("name", ptree.node "Foo Mod" []), ("version", ptree.node "1.2" [])])
      [] "foo" "Foo Mod" "1.2" rfl rfl rfl rfl rfl).2 Example.twoElementsText
      (ptree.node "" [("", ptree.node "" [("modid", ptree.node "foo" []),
        ("name", ptree.node "Foo Mod" []), ("version", ptree.node "1.2" [])]),
        ("", ptree.node "" [("modid", ptree.node "bar" [])])])
      [("", ptree.node "" [("modid", ptree.node "bar" [])])] rfl rfl⟩

/-- C3, refuted as stated: the first element of `noNameText` has `modid` and
`version` but no `name`; `ReadModInfoData` returns without error, but `modID`
has been overwritten with `foo` before the read of `name` threw. -/
theorem C3_counterexample :
    Reference.library.read_json (cStr Example.noNameText)
      = .ok (ptree.node "" [("", ptree.node "" [("modid", ptree.node "foo" []),
          ("version", ptree.node "1.2" [])])]) ∧
    ReadModInfoData Reference.library Example.blank Example.noNameText
      = .returned { Example.blank with modID := "foo" } ∧
    Example.blank.modID = "" ∧
    ({ Example.blank with modID := "foo" } : Mod).modID ≠ Example.blank.modID := by
  refine ⟨rfl, by decide, rfl, by decide⟩

/-- C3, amended: `ReadModInfoData` returns without error, and with all members
unchanged, when `read_json` throws, and also when the first child of the root
has no key `modid`; when the first child has `modid` but no key `name`, it
returns with `modID` overwritten and nothing else changed; when the first child
has `modid` and `name` but no key `version`, it returns with `modID` and
`modName` overwritten and nothing else changed. -/
theorem C3_failed_parse_returns (lib : Library) (self : Mod) (info : String) :
    (∀ e, lib.read_json (cStr info) = .error e →
        ReadModInfoData lib self info = .returned self) ∧
    (∀ (root : ptree) (first : String × ptree) (rest : List (String × ptree)),
        lib.read_json (cStr info) = .ok root → root.children = first :: rest →
        (first.2.lacksKey "modid" → ReadModInfoData lib self info = .returned self) ∧
        (∀ a, first.2.get "modid" = .ok a → first.2.lacksKey "name" →
          ReadModInfoData lib self info = .returned { self with modID := a }) ∧
        (∀ a n, first.2.get "modid" = .ok a → first.2.get "name" = .ok n →
          first.2.lacksKey "version" →
          ReadModInfoData lib self info
            = .returned { self with modID := a, modName := n })) := by
  constructor
  · intro e he
    unfold ReadModInfoData ReadModInfoData_try
    simp only [he]
    exact catchPtree_thrown self e
  · intro root first rest hparse hroot
    have htry := ReadModInfoData_try_first lib self info root first rest hparse hroot
    refine ⟨fun h1 => ?_, fun a h1 h2 => ?_, fun a n h1 h2 h3 => ?_⟩
    · have g1 := get_of_lacksKey first.2 "modid" (by decide) h1
      unfold ReadModInfoData
      rw [htry]
      simp only [g1]
      exact catchPtree_thrown _ _
    · have g2 := get_of_lacksKey first.2 "name" (by decide) h2
      unfold ReadModInfoData
      rw [htry]
      simp only [h1, g2]
      exact catchPtree_thrown _ _
    · have g3 := get_of_lacksKey first.2 "version" (by decide) h3
      unfold ReadModInfoData
      rw [htry]
      simp only [h1, h2, g3]
      exact catchPtree_thrown _ _

/-- The amended C3 on a descriptor cut off inside its array: the reference reader
reports a `json_parser_error`, and the record is returned unchanged. -/
theorem C3_failed_parse_returns_witness :
    Reference.library.read_json (cStr Example.truncatedText) = .error Exn.json_parser_error ∧
    ReadModInfoData Reference.library Example.blank Example.truncatedText
      = .returned Example.blank :=
  ⟨rfl,
    (C3_failed_parse_returns Reference.library Example.blank Example.truncatedText).1
      Exn.json_parser_error rfl⟩

/-! ## The Forge descriptor (claim C4) -/

/-- A member that one iteration overwrites exactly on the key `k` holds, after
the loop, the data of the last child with key `k`, or its initial value. -/
theorem foldl_forgeStep_member (π : ForgeNumbers → String) (k : String)
    (hstep : ∀ acc item, π (forgeStep acc item) = if item.1 = k then item.2.data else π acc)
    (init : ForgeNumbers) (l : List (String × ptree)) :
    π (l.foldl forgeStep init) =
      match l.reverse.find? (fun kv => kv.1 == k) with
      | some kv => kv.2.data
      | none => π init := by
  induction l using List.reverseRecOn with
  | nil => rfl
  | append_singleton l x ih =>
    rw [List.foldl_append, List.reverse_append]
    simp only [List.foldl_cons, List.foldl_nil, List.reverse_cons, List.reverse_nil,
      List.nil_append, List.singleton_append, List.find?_cons, hstep]
    by_cases hx : x.1 = k
    · simp only [hx, beq_self_eq_true, if_true]
    · have hb : (x.1 == k) = false := by simpa using hx
      simp only [hx, hb, if_false]
      exact ih

/-- The four locals after the loop. -/
theorem forgeLoop_members (items : List (String × ptree)) :
    forgeLoop items =
      { major := iniValue (ptree.node "" items) "forge.major.number"
        minor := iniValue (ptree.node "" items) "forge.minor.number"
        revision := iniValue (ptree.node "" items) "forge.revision.number"
        build := iniValue (ptree.node "" items) "forge.build.number" } := by
  have h1 := foldl_forgeStep_member ForgeNumbers.major "forge.major.number"
    (fun acc item => by unfold forgeStep; dsimp only; split_ifs <;> rfl)
    { major := "", minor := "", revision := "", build := "" } items
  have h2 := foldl_forgeStep_member ForgeNumbers.minor "forge.minor.number"
    (fun acc item => by unfold forgeStep; dsimp only; split_ifs <;> rfl)
    { major := "", minor := "", revision := "", build := "" } items
  have h3 := foldl_forgeStep_member ForgeNumbers.revision "forge.revision.number"
    (fun acc item => by unfold forgeStep; dsimp only; split_ifs <;> rfl)
    { major := "", minor := "", revision := "", build := "" } items
  have h4 := foldl_forgeStep_member ForgeNumbers.build "forge.build.number"
    (fun acc item => by unfold forgeStep; dsimp only; split_ifs <;> rfl)
    { major := "", minor := "", revision := "", build := "" } items
  unfold forgeLoop
  unfold iniValue
  simp only [ptree.children]
  rcases hr : List.foldl forgeStep { major := "", minor := "", revision := "", build := "" }
    items with ⟨a, b, c, d⟩
  rw [hr] at h1 h2 h3 h4
  simp only at h1 h2 h3 h4
  rw [← h1, ← h2, ← h3, ← h4]

/-- In a list with pairwise distinct keys, a search by key finds the one child with
that key. -/
theorem find?_key_of_mem (l : List (String × ptree)) (hnd : (l.map Prod.fst).Nodup)
    (k : String) (c : ptree) (h : (k, c) ∈ l) :
    l.find? (fun kv => kv.1 == k) = some (k, c) := by
  induction l with
  | nil => exact absurd h (List.not_mem_nil _)
  | cons x xs ih =>
    rw [List.map_cons, List.nodup_cons] at hnd
    rcases List.mem_cons.mp h with hx | hx
    · subst hx
      simp only [List.find?_cons, beq_self_eq_true]
    · have hk : k ∈ xs.map Prod.fst := List.mem_map.mpr ⟨(k, c), hx, rfl⟩
      have hne : x.1 ≠ k := fun he => hnd.1 (he ▸ hk)
      have hb : (x.1 == k) = false := by simpa using hne
      simp only [List.find?_cons, hb]
      exact ih hnd.2 hx

/-- C4: when the text parses to an INI tree `root`, `ReadForgeInfoData` returns
the record with `modName` set to `Minecraft Forge`, `modID` set to `Forge`, and
`modVersion` set to the four values of `forge.major.number`,
`forge.minor.number`, `forge.revision.number` and `forge.build.number` joined by
dots, every other member unchanged. The value of a key is the empty string when
no child of the root has the key, and the data of the child with that key when
the keys of the root are pairwise distinct (as `read_ini` makes them). -/
theorem C4_forge_version_assembled (lib : Library) (self : Mod) (info : String)
    (root : ptree) (hparse : lib.read_ini (cStr info) = .ok root) :
    ReadForgeInfoData lib self info
      = .returned
          { self with
            modName := "Minecraft Forge"
            modID := "Forge"
            modVersion := iniValue root "forge.major.number" ++ "." ++
              iniValue root "forge.minor.number" ++ "." ++
              iniValue root "forge.revision.number" ++ "." ++
              iniValue root "forge.build.number" } ∧
    (∀ key, root.lacksKey key → iniValue root key = "") ∧
    (∀ key c, (root.children.map Prod.fst).Nodup → (key, c) ∈ root.children →
      iniValue root key = c.data) := by
  refine ⟨?_, fun key hkey => ?_, fun key c hnd hmem => ?_⟩
  · unfold ReadForgeInfoData ReadForgeInfoData_try
    simp only [hparse]
    cases root with
    | node d items =>
      simp only [ptree.children, forgeLoop_members items, iniValue, catchPtree,
        String.empty_append]
  · unfold iniValue
    have hfind : root.children.reverse.find? (fun kv => kv.1 == key) = none := by
      rw [List.find?_eq_none]
      intro kv hkv
      have := hkey kv (List.mem_reverse.mp hkv)
      simpa using this
    simp only [hfind]
  · unfold iniValue
    have hnd' : (root.children.reverse.map Prod.fst).Nodup := by
      rw [List.map_reverse]; exact List.nodup_reverse.mpr hnd
    rw [find?_key_of_mem root.children.reverse hnd' key c (List.mem_reverse.mpr hmem)]

/-- C4 on the properties of the spec's example, read by the reference reader:
major 1, minor 2, revision 3 and no build number give the version `1.2.3.`. -/
theorem C4_forge_version_assembled_witness :
    ReadForgeInfoData Reference.library Example.blank Example.forgeText
      = .returned
          { Example.blank with
            modName := "Minecraft Forge"
            modID := "Forge"
            modVersion := "1.2.3." } :=
  (C4_forge_version_assembled Reference.library Example.blank Example.forgeText
    (ptree.node "" [("forge.major.number", ptree.node "1" []),
      ("forge.minor.number", ptree.node "2" []),
      ("forge.revision.number", ptree.node "3" [])]) rfl).1

/-! ## Equality (claim C9) -/

end MultiMC
